import Mathlib

/-!
Verification of the geoptics 2D ray-optics core (geoptics/elements/*.py)
against its natural-language specification.

Shallow embedding conventions:
* IEEE-754 doubles are modelled as exact rationals (`ℚ`); the model
  interprets all float arithmetic as exact field arithmetic.
* `math.sqrt` is modelled by `Rat.sqrt` (`msqrt`), which is exact on
  perfect squares and nonnegative everywhere; no theorem below depends
  on its value off perfect squares.
* `math.atan2` is never represented by a number: the source only ever
  compares `theta_x()` angles, and for nonzero vectors the comparison of
  the atan2 values (range `(-π, π]`) is decided exactly from the vector
  components by an angle-class plus cross-product test (`thetaLtB`).
* Python `float("inf")` part lengths are modelled by `Option ℚ`
  (`none` = infinite).
* Python exceptions are modelled by `PyError`; methods that can raise are
  either translated as `Except`/pairs carrying the error, or are only
  called (in the modelled flows) where the source cannot raise.
-/

set_option maxRecDepth 4000

namespace Geoptics

/-- Model of Python `math.sqrt` on our exact rationals: `Rat.sqrt` is
exact on perfect squares and nonnegative everywhere. -/
def msqrt (q : ℚ) : ℚ := Rat.sqrt q

/-- Model of Python `math.copysign(a, b)`: `|a|` carrying the sign of `b`
(rationals have no negative zero, so `b = 0` gives `+|a|`). -/
def copysign (a b : ℚ) : ℚ := if b < 0 then -|a| else |a|

/-- Python exception kinds raised by the modelled code. -/
inductive PyError where
  | zeroDivisionError
  | typeError
  | valueError
  | indexError
  | keyError
deriving DecidableEq

instance {ε α : Type} [DecidableEq ε] [DecidableEq α] :
    DecidableEq (Except ε α) := fun x y =>
  match x, y with
  | .ok a, .ok b =>
    if h : a = b then isTrue (by rw [h])
    else isFalse (by intro he; cases he; exact h rfl)
  | .error a, .error b =>
    if h : a = b then isTrue (by rw [h])
    else isFalse (by intro he; cases he; exact h rfl)
  | .ok _, .error _ => isFalse (by intro h; cases h)
  | .error _, .ok _ => isFalse (by intro h; cases h)

/-- `geoptics.elements.vector.Point`. -/
structure PointM where
  x : ℚ
  y : ℚ
deriving DecidableEq, Inhabited

/-- `geoptics.elements.vector.Vector`. -/
structure VectorM where
  x : ℚ
  y : ℚ
deriving DecidableEq, Inhabited

/-- `Vector.__mul__` on two vectors: the scalar (dot) product. -/
def VectorM.dot (a b : VectorM) : ℚ := a.x * b.x + a.y * b.y

/-- `Vector.__mul__` with a number: scaling. -/
def VectorM.smul (v : VectorM) (c : ℚ) : VectorM := ⟨v.x * c, v.y * c⟩

/-- `Vector.__add__`. -/
def VectorM.add (a b : VectorM) : VectorM := ⟨a.x + b.x, a.y + b.y⟩

/-- Square of `Vector.norm` (`x*x + y*y` before the sqrt). -/
def VectorM.normSq (v : VectorM) : ℚ := v.x * v.x + v.y * v.y

/-- `Vector.norm`: `sqrt(x*x + y*y)`. -/
def VectorM.norm (v : VectorM) : ℚ := msqrt v.normSq

/-- `Vector.normalize`, total version with Lean's `x / 0 = 0` convention.
On a zero norm Python raises `ZeroDivisionError` instead (see
`VectorM.normalizeE`); every call site in the modelled propagation flow
has a nonzero norm except degenerate geometries outside the claims. -/
def VectorM.normalize (v : VectorM) : VectorM :=
  ⟨v.x / v.norm, v.y / v.norm⟩

/-- `Vector.normalize` with Python's division semantics made explicit:
`self.x / norm` raises `ZeroDivisionError` exactly when the computed norm
is zero. -/
def VectorM.normalizeE (v : VectorM) : Except PyError VectorM :=
  if v.norm = 0 then .error .zeroDivisionError else .ok v.normalize

/-- `Vector.normal`: the vector `(y, -x)`, optionally normalized. -/
def VectorM.normal (v : VectorM) (normalized : Bool) : VectorM :=
  if normalized then (VectorM.mk v.y (-v.x)).normalize else ⟨v.y, -v.x⟩

/-- `Vector.colinear`: exact zero test of the cross product
`self.x * other.y - self.y * other.x == 0`. -/
def VectorM.colinear (a b : VectorM) : Bool :=
  decide (a.x * b.y - a.y * b.x = 0)

/-- `Vector_M1M2`: the vector joining `M1` to `M2`. -/
def vecM1M2 (M1 M2 : PointM) : VectorM := ⟨M2.x - M1.x, M2.y - M1.y⟩

/-- Cross product of two vectors (used for orientation tests). -/
def crossV (a b : VectorM) : ℚ := a.x * b.y - a.y * b.x

/-- Angle class of `atan2(v.y, v.x)` within `(-π, π]`:
`0` for the open lower half-plane `(-π, 0)`, `1` for angle `0`
(including `atan2(0, 0) = 0`), `2` for the open upper half-plane
`(0, π)`, `3` for angle `π`. Classes are ordered as the angles are. -/
def thetaClass (v : VectorM) : ℕ :=
  if v.y < 0 then 0
  else if 0 < v.y then 2
  else if v.x < 0 then 3
  else 1

/-- Exact decision of `atan2(a.y, a.x) < atan2(b.y, b.x)`:
compare angle classes first; within one class the strict order holds
exactly when the cross product is positive (both single-angle classes
give a zero cross product, and within an open half-plane the angular
difference is below π, where the cross-product sign is the order). -/
def thetaLtB (a b : VectorM) : Bool :=
  if thetaClass a < thetaClass b then true
  else if thetaClass b < thetaClass a then false
  else decide (0 < crossV a b)

/-- Exact decision of `atan2(a) ≤ atan2(b)` (atan2 values are totally
ordered, so `≤` is the negation of the reversed strict order). -/
def thetaLeB (a b : VectorM) : Bool := !(thetaLtB b a)

/-- The angle `π` as a direction vector, for the comparison
`theta_i <= pi` in `Arc.__contains__`. -/
def piVec : VectorM := ⟨-1, 0⟩

/-- The comparison `theta_i > -pi` of `Arc.__contains__`: atan2 ranges
over `(-π, π]` and `-π` itself only appears for IEEE negative-zero `y`,
which has no rational counterpart, so the comparison always holds. -/
def negPiLtTheta (_v : VectorM) : Bool := true

/-- `geoptics.elements.line.Line`: point plus direction. -/
structure LineM where
  p : PointM
  u : VectorM
deriving DecidableEq, Inhabited

/-- `Line.point(s)`: the point `p + s * u`. -/
def LineM.point (l : LineM) (s : ℚ) : PointM :=
  ⟨l.p.x + s * l.u.x, l.p.y + s * l.u.y⟩

/-- `Line.normal`. -/
def LineM.normal (l : LineM) (normalized : Bool) : VectorM :=
  l.u.normal normalized

/-- `Line.tangent`. -/
def LineM.tangent (l : LineM) (normalized : Bool) : VectorM :=
  if normalized then l.u.normalize else l.u

/-- `geoptics.elements.line.Intersection` namedtuple. -/
structure IntersectionM where
  p : PointM
  s : ℚ
  eN : VectorM
  eT : VectorM
deriving DecidableEq, Inhabited

/-- `Line.intersection(other, sign_of_s)`: Cramer's rule, empty on exact
colinearity; `s` is the parameter on `other`. -/
def LineM.intersection (l : LineM) (other : LineM) (sign_of_s : ℚ) :
    List IntersectionM :=
  if other.u.colinear l.u then []
  else
    let s := ((l.p.x - other.p.x) * l.u.y - (l.p.y - other.p.y) * l.u.x) /
             (other.u.x * l.u.y - other.u.y * l.u.x)
    if (sign_of_s = 0 ∧ ¬s = 0) ∨ s * sign_of_s > 0 then
      [⟨⟨other.p.x + s * other.u.x, other.p.y + s * other.u.y⟩, s,
        l.normal true, l.tangent true⟩]
    else []

/-- `geoptics.elements.segment.Segment`. -/
structure SegmentM where
  M1 : PointM
  M2 : PointM
deriving DecidableEq, Inhabited

/-- `Segment.intersection(other, sign_of_s)`: intersect the carrying line
(anchored at `M1`, direction `M1M2`) with `other`, then reject hits
outside the `M1`–`M2` extent on the axis of larger spread (strict
comparisons, so endpoint hits are kept). -/
def SegmentM.intersection (seg : SegmentM) (other : LineM) (sign_of_s : ℚ) :
    List IntersectionM :=
  let result := (LineM.mk seg.M1 (vecM1M2 seg.M1 seg.M2)).intersection
      other sign_of_s
  match result with
  | [] => []
  | i :: _ =>
    if |seg.M2.x - seg.M1.x| > |seg.M2.y - seg.M1.y| then
      if seg.M2.x > seg.M1.x then
        if i.p.x < seg.M1.x ∨ i.p.x > seg.M2.x then [] else result
      else
        if i.p.x < seg.M2.x ∨ i.p.x > seg.M1.x then [] else result
    else
      if seg.M2.y > seg.M1.y then
        if i.p.y < seg.M1.y ∨ i.p.y > seg.M2.y then [] else result
      else
        if i.p.y < seg.M2.y ∨ i.p.y > seg.M1.y then [] else result

/-- `geoptics.elements.arc.Arc` after `__init__`: the derived fields are
stored. `theta1`/`theta2` are represented by the direction vectors
`CM1`/`CM2` whose atan2 angles they are; the source stores
`r = |C - M1|` (a sqrt) but only ever uses `r ** 2`, which `r2` models
exactly. -/
structure ArcM where
  M1 : PointM
  M2 : PointM
  tangent : VectorM
  C : PointM
  r2 : ℚ
  CM1 : VectorM
  CM2 : VectorM
  ccw : Bool
deriving DecidableEq, Inhabited

/-- `Arc.__init__`: derives the center (chord bisector ∩ line through `M1`
normal to the tangent), radius, angles and orientation. The
single-element unpacking `intersection, = ...` in `Arc.center` raises
`ValueError` when that intersection list is empty (degenerate data);
this is the `none` case. -/
def mkArc (M1 M2 : PointM) (tangent : VectorM) : Option ArcM :=
  let Mm : PointM := ⟨(M1.x + M2.x) * (1 / 2), (M1.y + M2.y) * (1 / 2)⟩
  let Vch := (vecM1M2 M1 M2).normal false
  let Vtg := tangent.normal false
  match (LineM.mk Mm Vch).intersection (LineM.mk M1 Vtg) 0 with
  | [] => none
  | i :: _ =>
    let C := i.p
    let CM1 := vecM1M2 C M1
    let CM2 := vecM1M2 C M2
    some ⟨M1, M2, tangent, C, (vecM1M2 M1 C).normSq, CM1, CM2,
          decide (0 < crossV CM1 tangent)⟩

/-- `Arc.__contains__(M)` as evaluated by the `in` operator: the method
returns `not self.ccw` when its angular band test succeeds and falls
through (returning `None`, which `in` coerces to `False`) when it fails;
the `false` branches below model that fall-through. -/
def ArcM.containsPt (A : ArcM) (M : PointM) : Bool :=
  let thI := vecM1M2 A.C M
  if thetaLtB A.CM2 A.CM1 then
    if thetaLtB A.CM2 thI && thetaLtB thI A.CM1 then !A.ccw else false
  else
    if (thetaLtB A.CM2 thI && thetaLeB thI piVec) ||
       (negPiLtTheta thI && thetaLtB thI A.CM1) then !A.ccw else false

/-- `Arc.intersection(other, sign_of_s)`: solve the quadratic
`|other.p + s*other.u - C|² = r²` with the cancellation-avoiding root
pair, keep the roots whose point passes `__contains__` and whose `s`
satisfies `s * sign_of_s >= 0`. -/
def ArcM.intersection (A : ArcM) (other : LineM) (sign_of_s : ℚ) :
    List IntersectionM :=
  let a := other.u.x ^ 2 + other.u.y ^ 2
  let s_list : List ℚ :=
    if a = 0 then []
    else
      let b := other.u.x * (other.p.x - A.C.x) +
               other.u.y * (other.p.y - A.C.y)
      let c := (other.p.x - A.C.x) ^ 2 + (other.p.y - A.C.y) ^ 2 - A.r2
      let delta := b ^ 2 - a * c
      if delta > 0 then
        let q := if b ≥ 0 then -b - msqrt delta else -b + msqrt delta
        [q / a, c / q]
      else if delta = 0 then [-b / a] else []
  s_list.filterMap (fun s =>
    let M := other.point s
    if A.containsPt M && decide (s * sign_of_s ≥ 0) then
      some ⟨M, s, (vecM1M2 A.C M).normalize,
            ((vecM1M2 A.C M).normalize).normal true⟩
    else none)

/-- A boundary piece of a `Polycurve`: `Segment` or `Arc`. -/
inductive CurveM where
  | seg (sg : SegmentM)
  | arc (a : ArcM)
deriving DecidableEq

/-- Dispatch of `curve.intersection(other, sign_of_s)`. -/
def CurveM.intersection : CurveM → LineM → ℚ → List IntersectionM
  | .seg sg, l, sgn => sg.intersection l sgn
  | .arc a, l, sgn => a.intersection l sgn

/-- `geoptics.elements.regions`: a single structure models both the base
`Region` (only `n` is meaningful; `curves = []` gives the base class's
empty `intersection` and always-false `contains`) and `Polycurve`
(with its `tag`, vertex list `M` and `curves`). The source's `n` may be
`None` before configuration; every region in the modelled flows carries
a number. -/
structure RegionM where
  n : ℚ
  tag : Option String
  M : List PointM
  curves : List CurveM
deriving DecidableEq

instance : Inhabited RegionM := ⟨⟨1, none, [], []⟩⟩

/-- `Polycurve.intersection`: concatenate the curve intersections in
curve order (`result.extend` in a loop). -/
def RegionM.intersection (rg : RegionM) (other : LineM) (sign_of_s : ℚ) :
    List IntersectionM :=
  rg.curves.foldl (fun acc c => acc ++ c.intersection other sign_of_s) []

/-- `Region.contains` with a `line` argument: parity of the forward
(`sign_of_s = 1`) boundary crossings. -/
def RegionM.containsLine (rg : RegionM) (line : LineM) : Bool :=
  decide ((rg.intersection line 1).length % 2 = 1)

/-- `Region.contains(point=p)` with no direction: `Line(p, None)` defaults
the direction to `Vector(1, 0)`. -/
def RegionM.containsPoint (rg : RegionM) (point : PointM) : Bool :=
  rg.containsLine ⟨point, ⟨1, 0⟩⟩

/-- `geoptics.elements.rays.Part`: `s` is the length along `line.u`
(`none` models `float("inf")`), `n` the optical index (`none` = Python
`None`). -/
structure PartM where
  line : LineM
  s : Option ℚ
  n : Option ℚ
deriving DecidableEq, Inhabited

/-- `geoptics.elements.rays.Ray`: the ordered parts and the tag (the
`source` back-reference is not part of the model). -/
structure RayM where
  parts : List PartM
  tag : Option String
deriving DecidableEq, Inhabited

/-- Model of a `Source` (`SingleRay`; `Beam` is not modelled because its
`from_config` re-interpolates rays through trigonometric functions). -/
structure SourceM where
  tag : Option String
  rays : List RayM
deriving DecidableEq

/-- `geoptics.elements.scene.Scene`: background region (`Region(n=1.0)`),
regions and sources in insertion order. -/
structure SceneM where
  background : RegionM
  regions : List RegionM
  sources : List SourceM
deriving DecidableEq

/-- A fresh `Scene()`. -/
def SceneM.empty : SceneM := ⟨⟨1, none, [], []⟩, [], []⟩

/-- `Scene.region_at` (with a `line`): first region in insertion order
whose `contains` is true, else the background. -/
def SceneM.region_at (sc : SceneM) (line : LineM) : RegionM :=
  match sc.regions.find? (fun rg => rg.containsLine line) with
  | some rg => rg
  | none => sc.background

/-- `Scene.region_at(point)` (positional point, no direction). -/
def SceneM.region_at_point (sc : SceneM) (point : PointM) : RegionM :=
  sc.region_at ⟨point, ⟨1, 0⟩⟩

/-- The element kinds `Scene.add` / `Scene.remove` dispatch on (the
configuration-dictionary branch of `add` is modelled separately by
`addRegionsCfg`/`addSourcesCfg`). -/
inductive SceneElem where
  | ray (r : RayM)
  | region (rg : RegionM)
  | source (s : SourceM)
deriving DecidableEq

/-- `Scene.add`, returned as (state after the call, raised error if any):
a bare `Ray` raises `TypeError` before any mutation; a `Region`/`Source`
already present raises `ValueError` before any mutation; otherwise the
element is appended. -/
def SceneM.add (sc : SceneM) (o : SceneElem) : SceneM × Option PyError :=
  match o with
  | .ray _ => (sc, some .typeError)
  | .region rg =>
    if rg ∈ sc.regions then (sc, some .valueError)
    else ({ sc with regions := sc.regions ++ [rg] }, none)
  | .source s =>
    if s ∈ sc.sources then (sc, some .valueError)
    else ({ sc with sources := sc.sources ++ [s] }, none)

/-- `Scene.remove`: a bare `Ray` raises `TypeError`; otherwise
`list.remove` drops the first matching element and raises `ValueError`
if absent. -/
def SceneM.remove (sc : SceneM) (o : SceneElem) : SceneM × Option PyError :=
  match o with
  | .ray _ => (sc, some .typeError)
  | .region rg =>
    if rg ∈ sc.regions then ({ sc with regions := sc.regions.erase rg }, none)
    else (sc, some .valueError)
  | .source s =>
    if s ∈ sc.sources then ({ sc with sources := sc.sources.erase s }, none)
    else (sc, some .valueError)

/-- `sys.float_info.epsilon * 1000`, the roundoff margin of
`Ray.propagate`. -/
def margin : ℚ := 1000 * (1 / 2 ^ 52)

/-- `self.parts[-1]`; the default is never reached in the modelled flow
(`propagate` starts from a singleton part list and only appends). -/
def lastPartD (parts : List PartM) : PartM := parts.getLast?.getD default

/-- `Ray.change_s(-1, new_s)`, the only `change_s` call in `propagate`:
set the length of the last part. -/
def changeSLast : List PartM → ℚ → List PartM
  | [], _ => []
  | [p], sNew => [{ p with s := some sNew }]
  | p :: q :: ps, sNew => p :: changeSLast (q :: ps) sNew

/-- `Ray.add_part(u, s, n)`: append a part starting at the end point of
the last part. In `propagate` this always follows `change_s`, so the
last length is finite; the `none` case (Python would compute coordinates
from `float("inf")`) is unreachable there. -/
def RayM.add_part (r : RayM) (u : VectorM) (s : Option ℚ) (n : Option ℚ) :
    RayM :=
  let lastP := lastPartD r.parts
  let pStart : PointM :=
    match lastP.s with
    | some sv => lastP.line.point sv
    | none => ⟨0, 0⟩
  { r with parts := r.parts ++ [⟨⟨pStart, u⟩, s, n⟩] }

/-- The line of `self.parts[-1]`. -/
def rayLastLine (r : RayM) : LineM := (lastPartD r.parts).line

/-- Stable insertion into a list already sorted by `s`, keeping existing
elements with an equal key first. -/
def insertByS (i : IntersectionM) : List IntersectionM → List IntersectionM
  | [] => [i]
  | j :: js => if j.s ≤ i.s then j :: insertByS i js else i :: j :: js

/-- `intersections.sort(key=itemgetter(1))`: a stable ascending sort on
the `s` field. -/
def sortByS (l : List IntersectionM) : List IntersectionM :=
  l.foldl (fun acc i => insertByS i acc) []

/-- A found diopter: the chosen intersection `(i_point, smin, eN, eT)` and
the region ahead of it (`region2`). -/
structure Diopter where
  i : IntersectionM
  region2 : RegionM
deriving DecidableEq

/-- The diopter search of one `propagate` iteration: collect all forward
intersections with every region boundary, sort by `s`, and walk them
taking the first whose just-past point (`s + margin`) lies in a region
of a different index; `none` when there is no intersection or none
changes the medium (`smin is None` in the source). -/
def SceneM.findDiopter (sc : SceneM) (current_region : RegionM)
    (lastLine : LineM) : Option Diopter :=
  let ints := sc.regions.foldl
      (fun acc rg => acc ++ rg.intersection lastLine 1) []
  (sortByS ints).findSome? (fun i =>
    let point_ahead := lastLine.point (i.s + margin)
    let region_ahead := sc.region_at_point point_ahead
    if region_ahead.n ≠ current_region.n then some ⟨i, region_ahead⟩
    else none)

/-- Result of the Snell-law branch of the loop body: the new normal
component `u2N`, the index `n_next` and the region for the next
iteration. -/
structure SnellRes where
  u2N : ℚ
  nNext : ℚ
  nextRegion : RegionM
deriving DecidableEq

/-- The refraction/total-internal-reflection decision of
`Ray.propagate`: `u2N² = ((n2/n1)² - 1)·u1T² + (n2/n1)²·u1N²`; when
nonnegative, refract (`u2N = copysign(sqrt(u2N²), u1N)`, index `n2`,
move into `region2`); when negative, reflect (`u2N = -u1N`, keep `n1`
and the current region). -/
def snellStep (current_region region2 : RegionM) (u1N u1T n1 n2 : ℚ) :
    SnellRes :=
  let u2N2 := ((n2 / n1) ^ 2 - 1) * u1T ^ 2 + (n2 / n1) ^ 2 * u1N ^ 2
  if u2N2 ≥ 0 then
    { u2N := copysign (msqrt u2N2) u1N, nNext := n2, nextRegion := region2 }
  else
    { u2N := -u1N, nNext := n1, nextRegion := current_region }

/-- The body of one `propagate` iteration once a diopter has been chosen
and the budget allows continuing: truncate the last part at `smin`,
compute the next direction by the vector Snell law, and append a fresh
infinite part carrying the next index; returns the updated ray and the
region for the next iteration. -/
def iterStep (current_region : RegionM) (r : RayM) (d : Diopter) :
    RayM × RegionM :=
  let r1 : RayM := { r with parts := changeSLast r.parts d.i.s }
  let u1 := (lastPartD r1.parts).line.u
  let u1N := u1.dot d.i.eN
  let u1T := u1.dot d.i.eT
  let n1 := (lastPartD r1.parts).n.getD 0
  let st := snellStep current_region d.region2 u1N u1T n1 d.region2.n
  let uNext := (VectorM.add (d.i.eT.smul u1T) (d.i.eN.smul st.u2N)).normalize
  (r1.add_part uNext none (some st.nNext), st.nextRegion)

/-- The `while cont:` loop of `Ray.propagate`, with the `cont` counter as
fuel: entered with `cont = 20`; finding no diopter sets `cont = 0`
(stop); finding one decrements `cont`, and appends the next part only if
the decremented budget is still positive. -/
def propagateLoop (sc : SceneM) : RayM → RegionM → ℕ → RayM
  | r, _, 0 => r
  | r, current_region, c + 1 =>
    match sc.findDiopter current_region (rayLastLine r) with
    | none => r
    | some d =>
      if 0 < c then
        let rc := iterStep current_region r d
        propagateLoop sc rc.1 rc.2 c
      else { r with parts := changeSLast r.parts d.i.s }

/-- `Ray.propagate(scene)`: find the starting region from the first
part's line, stamp its index on the first part, reset the ray to that
single part, and run the loop with a budget of 20 parts. -/
def RayM.propagate (sc : SceneM) (r : RayM) : RayM :=
  let part0 := r.parts.head?.getD default
  let current_region := sc.region_at part0.line
  let part0' := { part0 with n := some current_region.n }
  propagateLoop sc { r with parts := [part0'] } current_region 20

/-! Configuration dictionaries. Each `*.config` property and
`from_config` classmethod is modelled on structures mirroring the dict
shapes of the source. An absent optional key and a key holding `None`
are both modelled as `none`. -/

/-- `{'x': ..., 'y': ...}` of a `Point`. -/
structure PointConfig where
  x : ℚ
  y : ℚ
deriving DecidableEq, Inhabited

/-- `{'x': ..., 'y': ...}` of a `Vector`. -/
structure VectorConfig where
  x : ℚ
  y : ℚ
deriving DecidableEq, Inhabited

/-- `{'p': ..., 'u': ...}` of a `Line`. -/
structure LineConfig where
  p : PointConfig
  u : VectorConfig
deriving DecidableEq, Inhabited

/-- `{'line': ..., 's': ..., 'n': ...}` of a `Part` (`s = none` models
`float("inf")`). -/
structure PartConfig where
  line : LineConfig
  s : Option ℚ
  n : Option ℚ
deriving DecidableEq, Inhabited

/-- `{'parts': [...]}` of a `Ray`, with the optional `tag` key read by
`Ray.from_config`; `Ray.config` never emits a `tag` key, which is
modelled as `tag = none` in its output. -/
structure RayConfig where
  parts : List PartConfig
  tag : Option String
deriving DecidableEq, Inhabited

/-- A curve entry of a `Polycurve` config: `{'Class': 'Segment', ...}` or
`{'Class': 'Arc', ...}` (an unknown `Class` raises
`NotImplementedError` in the source and is not representable here). -/
inductive CurveConfig where
  | seg (M1 M2 : PointConfig)
  | arc (M1 M2 : PointConfig) (tangent : VectorConfig)
deriving DecidableEq

/-- The `M1` entry of a curve config (both kinds have one). -/
def CurveConfig.cM1 : CurveConfig → PointConfig
  | .seg a _ => a
  | .arc a _ _ => a

/-- The `M2` entry of a curve config. -/
def CurveConfig.cM2 : CurveConfig → PointConfig
  | .seg _ b => b
  | .arc _ b _ => b

/-- `{'Class': ..., 'tag': ..., 'n': ..., 'curves': [...]}` of a
`Polycurve`. -/
structure PolycurveConfig where
  className : String
  tag : Option String
  n : ℚ
  curves : List CurveConfig
deriving DecidableEq

/-- `{'Class': ..., 'tag': ..., 'rays': [...]}` of a `Source`. -/
structure SourceConfig where
  className : String
  tag : Option String
  rays : List RayConfig
deriving DecidableEq

/-- `{'Regions': [...], 'Sources': [...]}` of a `Scene`. -/
structure SceneConfig where
  regions : List PolycurveConfig
  sources : List SourceConfig
deriving DecidableEq

/-- `Point.config`. -/
def PointM.config (p : PointM) : PointConfig := ⟨p.x, p.y⟩

/-- `Point.from_config` (`cls(**config)`). -/
def pointFromConfig (c : PointConfig) : PointM := ⟨c.x, c.y⟩

/-- `Vector.config`. -/
def VectorM.config (v : VectorM) : VectorConfig := ⟨v.x, v.y⟩

/-- `Vector.from_config`. -/
def vectorFromConfig (c : VectorConfig) : VectorM := ⟨c.x, c.y⟩

/-- `Line.config`. -/
def LineM.config (l : LineM) : LineConfig := ⟨l.p.config, l.u.config⟩

/-- `Line.from_config` (the constructor copies `p` and `u`). -/
def lineFromConfig (c : LineConfig) : LineM :=
  ⟨pointFromConfig c.p, vectorFromConfig c.u⟩

/-- `Part.config`. -/
def PartM.config (pt : PartM) : PartConfig := ⟨pt.line.config, pt.s, pt.n⟩

/-- `Part.from_config`. -/
def partFromConfig (c : PartConfig) : PartM :=
  ⟨lineFromConfig c.line, c.s, c.n⟩

/-- `Ray.config`: only the `parts` key is emitted; the ray's tag is
dropped (modelled by the constant `none`). -/
def RayM.config (r : RayM) : RayConfig :=
  ⟨r.parts.map PartM.config, none⟩

/-- `Ray.from_config(config, source, tag)`: an explicit `tag` argument
wins over the config's `tag` entry; the parts are rebuilt from their
configs. -/
def rayFromConfig (c : RayConfig) (tagArg : Option String) : RayM :=
  { parts := c.parts.map partFromConfig,
    tag := match tagArg with
           | some t => some t
           | none => c.tag }

/-- `Segment.config` as a curve entry. -/
def SegmentM.config (sg : SegmentM) : CurveConfig :=
  .seg sg.M1.config sg.M2.config

/-- `Arc.config` as a curve entry (the stored `M1`, `M2`, `tangent`). -/
def ArcM.config (a : ArcM) : CurveConfig :=
  .arc a.M1.config a.M2.config a.tangent.config

/-- `curve.config` dispatch. -/
def CurveM.config : CurveM → CurveConfig
  | .seg sg => sg.config
  | .arc a => a.config

/-- The last vertex `self.M[-1]` of a polycurve under construction; the
default is never reached (`start` seeds a one-element list). -/
def lastMD (rg : RegionM) : PointM := rg.M.getLast?.getD default

/-- `Polycurve.add_line(M_next)`: append `Segment(self.M[-1], M_next)`
and the vertex. -/
def RegionM.add_line (rg : RegionM) (MNext : PointM) : RegionM :=
  { rg with curves := rg.curves ++ [.seg ⟨lastMD rg, MNext⟩],
            M := rg.M ++ [MNext] }

/-- `Polycurve.add_arc(M_next, tangent)`: append
`Arc(self.M[-1], M_next, tangent)`; a degenerate arc raises
`ValueError` inside `Arc.center`. -/
def RegionM.add_arc (rg : RegionM) (MNext : PointM) (tangent : VectorM) :
    Except PyError RegionM :=
  match mkArc (lastMD rg) MNext tangent with
  | none => .error .valueError
  | some A => .ok { rg with curves := rg.curves ++ [.arc A],
                            M := rg.M ++ [MNext] }

/-- The `for curve_config in curves_config` loop of
`Polycurve.from_config`: each `Segment` entry only uses its `M2` (its
`M1` is replaced by the running last vertex), each `Arc` entry its `M2`
and `tangent`. -/
def pcAddCurves : RegionM → List CurveConfig → Except PyError RegionM
  | rg, [] => .ok rg
  | rg, .seg _ M2 :: rest => pcAddCurves (rg.add_line (pointFromConfig M2)) rest
  | rg, .arc _ M2 tg :: rest =>
    match rg.add_arc (pointFromConfig M2) (vectorFromConfig tg) with
    | .error e => .error e
    | .ok rg2 => pcAddCurves rg2 rest

/-- `Polycurve.from_config`: start at the first curve's `M1`
(`IndexError` on an empty curve list), then add every curve; the tag and
index are taken from the config. -/
def polycurveFromConfig (cfg : PolycurveConfig) : Except PyError RegionM :=
  match cfg.curves with
  | [] => .error .indexError
  | c0 :: _ =>
    pcAddCurves ⟨cfg.n, cfg.tag, [pointFromConfig c0.cM1], []⟩ cfg.curves

/-- `Polycurve.config`. -/
def RegionM.config (rg : RegionM) : PolycurveConfig :=
  ⟨"Polycurve", rg.tag, rg.n, rg.curves.map CurveM.config⟩

/-- `Source.from_config` (as inherited by `SingleRay`): the constructor
is called `cls(scene=scene)` with no tag, so the new source's tag is
`None`; the config's tag is only handed to each `Ray.from_config`. -/
def sourceFromConfig (cfg : SourceConfig) : SourceM :=
  { tag := none,
    rays := cfg.rays.map (fun rc => rayFromConfig rc cfg.tag) }

/-- `Source.config` (for the modelled `SingleRay` class). -/
def SourceM.config (s : SourceM) : SourceConfig :=
  ⟨"SingleRay", s.tag, s.rays.map RayM.config⟩

/-- The `Regions` pass of `Scene._add_config`: look each `Class` name up
(only `Polycurve` is a modelled region class; unknown names raise
`KeyError`), build the region — `Polycurve.from_config(scene=self)`
appends it to the scene through `Region.__init__` — and keep the partial
state on failure. (The source inserts the region object before filling
it and mutates it in place; on successful loads the two are
indistinguishable.) -/
def addRegionsCfg : SceneM → List PolycurveConfig → SceneM × Option PyError
  | sc, [] => (sc, none)
  | sc, cfg :: rest =>
    if cfg.className = "Polycurve" then
      match polycurveFromConfig cfg with
      | .error e => (sc, some e)
      | .ok rg =>
        match sc.add (.region rg) with
        | (sc2, none) => addRegionsCfg sc2 rest
        | (sc2, some e) => (sc2, some e)
    else (sc, some .keyError)

/-- The `Sources` pass of `Scene._add_config`: only `SingleRay` is
modelled (`Beam.from_config` re-interpolates rays through trigonometric
functions and is outside the rational model). -/
def addSourcesCfg : SceneM → List SourceConfig → SceneM × Option PyError
  | sc, [] => (sc, none)
  | sc, cfg :: rest =>
    if cfg.className = "SingleRay" then
      match sc.add (.source (sourceFromConfig cfg)) with
      | (sc2, none) => addSourcesCfg sc2 rest
      | (sc2, some e) => (sc2, some e)
    else (sc, some .keyError)

/-- `Scene.from_config`: a fresh scene, then `_add_config` (regions, then
sources), keeping the partial state on failure. -/
def sceneFromConfig (cfg : SceneConfig) : SceneM × Option PyError :=
  match addRegionsCfg SceneM.empty cfg.regions with
  | (sc1, none) => addSourcesCfg sc1 cfg.sources
  | e => e

/-- `Scene.config`. -/
def SceneM.config (sc : SceneM) : SceneConfig :=
  ⟨sc.regions.map RegionM.config, sc.sources.map SourceM.config⟩

/-- Contiguity of a curve-config chain from a given previous vertex:
every entry's `M1` is the previous entry's `M2`. -/
def curvesChainFrom : PointConfig → List CurveConfig → Bool
  | _, [] => true
  | prev, c :: rest =>
    decide (c.cM1 = prev) && curvesChainFrom c.cM2 rest

/-- Contiguity of a `Polycurve` curve list (the first entry anchors the
chain). -/
def curvesChain : List CurveConfig → Bool
  | [] => true
  | c :: rest => curvesChainFrom c.cM2 rest

/-! Concrete fixtures used by witnesses and counterexamples. -/

/-- A square region `[10,20] × [0,10]` of index `3/2`, with the vertex
list as `Polycurve.from_config` builds it (the closing segment repeats
the first vertex). -/
def sqRegion : RegionM :=
  { n := 3 / 2, tag := none,
    M := [⟨10, 0⟩, ⟨20, 0⟩, ⟨20, 10⟩, ⟨10, 10⟩, ⟨10, 0⟩],
    curves := [.seg ⟨⟨10, 0⟩, ⟨20, 0⟩⟩, .seg ⟨⟨20, 0⟩, ⟨20, 10⟩⟩,
               .seg ⟨⟨20, 10⟩, ⟨10, 10⟩⟩, .seg ⟨⟨10, 10⟩, ⟨10, 0⟩⟩] }

/-- A scene holding only `sqRegion` over the default background. -/
def sceneEx : SceneM := ⟨⟨1, none, [], []⟩, [sqRegion], []⟩

/-- A ray starting at `(0, 5)` heading `(1, 0)` with length 100. -/
def rayEx : RayM := ⟨[⟨⟨⟨0, 5⟩, ⟨1, 0⟩⟩, some 100, none⟩], none⟩

/-- The diopter `Ray.propagate` finds for `rayEx` in `sceneEx`: the left
edge of the square at `s = 10`. -/
def dEx : Diopter := ⟨⟨⟨10, 5⟩, 10, ⟨-1, 0⟩, ⟨0, -1⟩⟩, sqRegion⟩

/-- The counter-clockwise quarter arc on the circle of center `(0,0)` and
radius 5 from `M1 = (5,0)` to `M2 = (0,5)` with tangent `(0,1)`
(`Arc(Point(5,0), Point(0,5), Vector(0,1))`). -/
def arcCcwEx : ArcM :=
  ⟨⟨5, 0⟩, ⟨0, 5⟩, ⟨0, 1⟩, ⟨0, 0⟩, 25, ⟨5, 0⟩, ⟨0, 5⟩, true⟩

/-- The clockwise quarter arc on the same circle from `M1 = (5,0)` to
`M2 = (0,-5)` with tangent `(0,-1)`. -/
def arcCwEx : ArcM :=
  ⟨⟨5, 0⟩, ⟨0, -5⟩, ⟨0, -1⟩, ⟨0, 0⟩, 25, ⟨5, 0⟩, ⟨0, -5⟩, false⟩

/-- A closed triangular region with vertices `(0,0)`, `(10,0)`, `(5,10)`,
with the vertex list as `Polycurve.from_config` builds it. -/
def triRegion : RegionM :=
  { n := 3 / 2, tag := none,
    M := [⟨0, 0⟩, ⟨10, 0⟩, ⟨5, 10⟩, ⟨0, 0⟩],
    curves := [.seg ⟨⟨0, 0⟩, ⟨10, 0⟩⟩, .seg ⟨⟨10, 0⟩, ⟨5, 10⟩⟩,
               .seg ⟨⟨5, 10⟩, ⟨0, 0⟩⟩] }

/-- The configuration that builds `triRegion`. -/
def triCfg : PolycurveConfig :=
  ⟨"Polycurve", none, 3 / 2,
   [.seg ⟨0, 0⟩ ⟨10, 0⟩, .seg ⟨10, 0⟩ ⟨5, 10⟩, .seg ⟨5, 10⟩ ⟨0, 0⟩]⟩

/-- A square region `[0,20]²` of index 2 (overlap fixture). -/
def sqBig1 : RegionM :=
  { n := 2, tag := none,
    M := [⟨0, 0⟩, ⟨20, 0⟩, ⟨20, 20⟩, ⟨0, 20⟩, ⟨0, 0⟩],
    curves := [.seg ⟨⟨0, 0⟩, ⟨20, 0⟩⟩, .seg ⟨⟨20, 0⟩, ⟨20, 20⟩⟩,
               .seg ⟨⟨20, 20⟩, ⟨0, 20⟩⟩, .seg ⟨⟨0, 20⟩, ⟨0, 0⟩⟩] }

/-- A square region `[0,30]²` of index 3, overlapping `sqBig1`. -/
def sqBig2 : RegionM :=
  { n := 3, tag := none,
    M := [⟨0, 0⟩, ⟨30, 0⟩, ⟨30, 30⟩, ⟨0, 30⟩, ⟨0, 0⟩],
    curves := [.seg ⟨⟨0, 0⟩, ⟨30, 0⟩⟩, .seg ⟨⟨30, 0⟩, ⟨30, 30⟩⟩,
               .seg ⟨⟨30, 30⟩, ⟨0, 30⟩⟩, .seg ⟨⟨0, 30⟩, ⟨0, 0⟩⟩] }

/-- A scene where `sqBig1` (added first) and `sqBig2` overlap. -/
def sceneOverlap : SceneM := ⟨⟨1, none, [], []⟩, [sqBig1, sqBig2], []⟩

/-- An empty source fixture. -/
def srcEx : SourceM := ⟨none, []⟩

/-- A scene holding `sqRegion` and `srcEx` (duplicate-add fixture). -/
def sceneC7 : SceneM := ⟨⟨1, none, [], []⟩, [sqRegion], [srcEx]⟩

/-- A one-part ray configuration with no tag. -/
def rayCfgEx : RayConfig := ⟨[⟨⟨⟨0, 5⟩, ⟨1, 0⟩⟩, some 100, none⟩], none⟩

/-- A `SingleRay` source configuration with no tags. -/
def srcCfgEx : SourceConfig := ⟨"SingleRay", none, [rayCfgEx]⟩

/-- A scene configuration: the triangle region and the single-ray
source. -/
def sceneCfgEx : SceneConfig := ⟨[triCfg], [srcCfgEx]⟩

/-- The scene `sceneCfgEx` builds. -/
def sceneFromCfgEx : SceneM :=
  ⟨⟨1, none, [], []⟩, [triRegion],
   [⟨none, [⟨[⟨⟨⟨0, 5⟩, ⟨1, 0⟩⟩, some 100, none⟩], none⟩]⟩]⟩

/-! Shared lemmas. -/

theorem changeSLast_length : ∀ (ps : List PartM) (sNew : ℚ),
    (changeSLast ps sNew).length = ps.length
  | [], _ => rfl
  | [_], _ => rfl
  | p :: q :: ps, sNew => by
      simp [changeSLast, changeSLast_length (q :: ps) sNew]

theorem changeSLast_ne_nil : ∀ (ps : List PartM) (sNew : ℚ), ps ≠ [] →
    changeSLast ps sNew ≠ []
  | [], _, h => absurd rfl h
  | [_], _, _ => by simp [changeSLast]
  | _ :: _ :: _, _, _ => by simp [changeSLast]

theorem lastPartD_cons_of_ne_nil (p : PartM) (l : List PartM) (h : l ≠ []) :
    lastPartD (p :: l) = lastPartD l := by
  cases l with
  | nil => exact absurd rfl h
  | cons x xs => simp [lastPartD, List.getLast?_cons_cons]

theorem lastPartD_changeSLast : ∀ (ps : List PartM) (sNew : ℚ), ps ≠ [] →
    (lastPartD (changeSLast ps sNew)).s = some sNew
  | [], _, h => absurd rfl h
  | [_], _, _ => by simp [changeSLast, lastPartD]
  | p :: q :: ps, sNew, _ => by
      rw [show changeSLast (p :: q :: ps) sNew
            = p :: changeSLast (q :: ps) sNew from rfl,
          lastPartD_cons_of_ne_nil _ _ (changeSLast_ne_nil _ _ (by simp))]
      exact lastPartD_changeSLast (q :: ps) sNew (by simp)

theorem add_part_parts_length (r : RayM) (u : VectorM) (s n : Option ℚ) :
    ((r.add_part u s n).parts).length = r.parts.length + 1 := by
  simp [RayM.add_part]

theorem iterStep_parts_length (cr : RegionM) (r : RayM) (d : Diopter) :
    ((iterStep cr r d).1).parts.length = r.parts.length + 1 := by
  simp [iterStep, RayM.add_part, changeSLast_length]

/-- Evaluation of the diopter search on the concrete square scene: the
ray from `(0,5)` heading `(1,0)` first meets the square's left edge at
`s = 10`, and the region just past it is the square. -/
theorem findDiopter_sceneEx :
    sceneEx.findDiopter sceneEx.background (rayLastLine rayEx) = some dEx := by
  norm_num [SceneM.findDiopter, sceneEx, sqRegion, rayEx, dEx, rayLastLine,
    lastPartD, RegionM.intersection, CurveM.intersection, SegmentM.intersection,
    LineM.intersection, VectorM.colinear, vecM1M2, LineM.normal, LineM.tangent,
    VectorM.normal, VectorM.normalize, VectorM.norm, VectorM.normSq, msqrt,
    Rat.sqrt, sortByS, insertByS, SceneM.region_at_point,
    SceneM.region_at, RegionM.containsLine, margin, LineM.point]

theorem propagateLoop_parts_length_le (sc : SceneM) :
    ∀ (fuel : ℕ) (r : RayM) (cr : RegionM),
      (propagateLoop sc r cr fuel).parts.length ≤ r.parts.length + (fuel - 1)
  | 0, r, cr => by simp [propagateLoop]
  | fuel + 1, r, cr => by
      cases h : sc.findDiopter cr (rayLastLine r) with
      | none => simp [propagateLoop, h]
      | some d =>
          by_cases hc : 0 < fuel
          · have ih := propagateLoop_parts_length_le sc fuel
              (iterStep cr r d).1 (iterStep cr r d).2
            have hlen := iterStep_parts_length cr r d
            simp only [propagateLoop, h, hc, if_true]
            omega
          · have h0 : fuel = 0 := by omega
            subst h0
            simp [propagateLoop, h, changeSLast_length]

/-! Claim theorems. -/

/-- C1: `Ray.propagate` terminates with a bounded result for every scene:
the loop budget starts at 20 and every iteration either decrements it or
(no diopter) ends the loop, so the propagated ray has at most 20 parts;
and in the last budgeted iteration (`cont` reaching 0) at a found
diopter, the current part is truncated to the intersection's `s` — a
finite length (`some`) — and no further part is appended. -/
theorem C1_propagate_budget :
    (∀ (sc : SceneM) (r : RayM), (RayM.propagate sc r).parts.length ≤ 20) ∧
    (∀ (sc : SceneM) (cr : RegionM) (r : RayM) (d : Diopter),
      sc.findDiopter cr (rayLastLine r) = some d →
        propagateLoop sc r cr 1 = { r with parts := changeSLast r.parts d.i.s } ∧
        (r.parts ≠ [] →
          (lastPartD (propagateLoop sc r cr 1).parts).s = some d.i.s)) := by
  constructor
  · intro sc r
    simp only [RayM.propagate]
    refine le_trans (propagateLoop_parts_length_le sc 20 _ _) ?_
    simp
  · intro sc cr r d h
    have heq : propagateLoop sc r cr 1
        = { r with parts := changeSLast r.parts d.i.s } := by
      simp [propagateLoop, h]
    refine ⟨heq, ?_⟩
    intro hne
    rw [heq]
    exact lastPartD_changeSLast r.parts d.i.s hne

/-- Witness for C1 at the concrete square scene: the propagated ray has
at most 20 parts, and the budget-exhausted loop truncates to the found
diopter's `s` leaving a finite last length. -/
theorem C1_propagate_budget_witness :
    (RayM.propagate sceneEx rayEx).parts.length ≤ 20 ∧
    propagateLoop sceneEx rayEx sceneEx.background 1 =
      { rayEx with parts := changeSLast rayEx.parts dEx.i.s } ∧
    (lastPartD (propagateLoop sceneEx rayEx sceneEx.background 1).parts).s =
      some dEx.i.s := by
  refine ⟨C1_propagate_budget.1 sceneEx rayEx, ?_, ?_⟩
  · exact (C1_propagate_budget.2 sceneEx sceneEx.background rayEx dEx
      findDiopter_sceneEx).1
  · exact (C1_propagate_budget.2 sceneEx sceneEx.background rayEx dEx
      findDiopter_sceneEx).2 (by simp [rayEx])

/-- C3 (code bug): `Arc.__contains__` is expected (per the claim, the
method's docstring, and the repo's `test_orientations`, whose ccw
fixtures expect one intersection) to return the band test XOR'd against
`ccw` — `not ccw` on band success, `ccw` on band failure. The code
instead falls through with `None` (falsy) on band failure. Evaluated on
the ccw quarter arc `(5,0) → (0,5)` (center `(0,0)`, radius 5): the
point `(3,4)` lies on that arc's sector (its angle `atan2(4,3) ≈ 53°`
is strictly between `theta1 = 0` and `theta2 = π/2`), so the claim
requires `ccw = True`; the code yields `False`, and consequently the
vertical line `x = 3`, which crosses the arc at `(3,4)`, gets no
intersection at all. -/
theorem C3_arc_ccw_contains_bug :
    mkArc ⟨5, 0⟩ ⟨0, 5⟩ ⟨0, 1⟩ = some arcCcwEx ∧
    arcCcwEx.ccw = true ∧
    arcCcwEx.containsPt ⟨3, 4⟩ = false ∧
    arcCcwEx.intersection ⟨⟨3, -10⟩, ⟨0, 1⟩⟩ 1 = [] := by
  refine ⟨?_, rfl, ?_, ?_⟩
  · norm_num [mkArc, arcCcwEx, LineM.intersection, VectorM.colinear,
      VectorM.normal, VectorM.normalize, VectorM.norm, VectorM.normSq,
      msqrt, Rat.sqrt, vecM1M2, crossV, LineM.normal, LineM.tangent]
  · norm_num [ArcM.containsPt, arcCcwEx, thetaLtB, thetaLeB, thetaClass,
      crossV, vecM1M2, piVec, negPiLtTheta]
  · norm_num [ArcM.intersection, arcCcwEx, ArcM.containsPt, thetaLtB,
      thetaLeB, thetaClass, crossV, vecM1M2, piVec, negPiLtTheta,
      msqrt, Rat.sqrt, LineM.point, VectorM.normal, VectorM.normalize,
      VectorM.norm, VectorM.normSq]

/-- First-match characterization of `List.find?`: if position `i`
satisfies the predicate and every earlier position does not, `find?`
returns the element at `i`. -/
theorem find?_eq_of_first {α : Type} (p : α → Bool) :
    ∀ (l : List α) (i : ℕ) (hi : i < l.length),
      p (l.get ⟨i, hi⟩) = true →
      (∀ (j : ℕ) (hj : j < l.length), j < i → p (l.get ⟨j, hj⟩) = false) →
      l.find? p = some (l.get ⟨i, hi⟩)
  | [], i, hi, _, _ => absurd hi (by simp)
  | a :: l, 0, _, hp, _ => by
      simp only [List.get] at hp ⊢
      exact List.find?_cons_of_pos _ hp
  | a :: l, i + 1, hi, hp, hb => by
      have ha : p a = false := hb 0 (by simp) (by omega)
      simp only [List.get] at hp ⊢
      rw [List.find?_cons_of_neg _ (by simp [ha])]
      exact find?_eq_of_first p l i (by simpa using hi) hp
        (fun j hj hji => by
          simpa using hb (j + 1) (by simpa using hj) (by omega))

/-- C4: `Scene.region_at` scans `regions` in insertion order and returns
the first region whose `contains` test is true, the background when none
does; in particular when several regions contain the query the earliest
added one wins. -/
theorem C4_region_at_first_match :
    ∀ (sc : SceneM) (line : LineM),
      ((∀ rg ∈ sc.regions, rg.containsLine line = false) →
        sc.region_at line = sc.background) ∧
      (∀ (i : ℕ) (hi : i < sc.regions.length),
        (sc.regions.get ⟨i, hi⟩).containsLine line = true →
        (∀ (j : ℕ) (hj : j < sc.regions.length), j < i →
          (sc.regions.get ⟨j, hj⟩).containsLine line = false) →
        sc.region_at line = sc.regions.get ⟨i, hi⟩) := by
  intro sc line
  constructor
  · intro h
    unfold SceneM.region_at
    rw [List.find?_eq_none.mpr (fun rg hrg => by simp [h rg hrg])]
  · intro i hi hp hb
    unfold SceneM.region_at
    rw [find?_eq_of_first _ sc.regions i hi hp hb]

/-- Witness for C4: in `sceneOverlap` both squares contain the point
`(5,5)` (probed along `(1,0)`), and `region_at` returns `sqBig1`, the
one added first. -/
theorem C4_region_at_first_match_witness :
    sceneOverlap.region_at ⟨⟨5, 5⟩, ⟨1, 0⟩⟩ = sqBig1 ∧
    sqBig1.containsLine ⟨⟨5, 5⟩, ⟨1, 0⟩⟩ = true ∧
    sqBig2.containsLine ⟨⟨5, 5⟩, ⟨1, 0⟩⟩ = true := by
  have h1 : sqBig1.containsLine ⟨⟨5, 5⟩, ⟨1, 0⟩⟩ = true := by
    norm_num [RegionM.containsLine, RegionM.intersection, CurveM.intersection,
      SegmentM.intersection, LineM.intersection, VectorM.colinear, vecM1M2,
      LineM.normal, LineM.tangent, VectorM.normal, VectorM.normalize,
      VectorM.norm, VectorM.normSq, msqrt, Rat.sqrt, LineM.point, sqBig1]
  have h2 : sqBig2.containsLine ⟨⟨5, 5⟩, ⟨1, 0⟩⟩ = true := by
    norm_num [RegionM.containsLine, RegionM.intersection, CurveM.intersection,
      SegmentM.intersection, LineM.intersection, VectorM.colinear, vecM1M2,
      LineM.normal, LineM.tangent, VectorM.normal, VectorM.normalize,
      VectorM.norm, VectorM.normSq, msqrt, Rat.sqrt, LineM.point, sqBig2]
  refine ⟨?_, h1, h2⟩
  have happ := (C4_region_at_first_match sceneOverlap ⟨⟨5, 5⟩, ⟨1, 0⟩⟩).2 0
    (by simp [sceneOverlap]) (by simpa [sceneOverlap] using h1)
    (fun j hj hji => absurd hji (by omega))
  simpa [sceneOverlap] using happ

/-- C6 counterexample: on the clockwise quarter arc `(5,0) → (0,-5)`
(center `(0,0)`, radius 5), the query half-line starting at `(3,-4)` —
a point on the circle inside the arc's sector — in direction `(1,0)`
with `sign_of_s = 1` returns an intersection with `s = 0`, because the
filter is the nonstrict `s * sign_of_s >= 0`. This refutes the claim
that no intersection with `s = 0` is ever returned. -/
theorem C6_zero_s_counterexample :
    mkArc ⟨5, 0⟩ ⟨0, -5⟩ ⟨0, -1⟩ = some arcCwEx ∧
    arcCwEx.intersection ⟨⟨3, -4⟩, ⟨1, 0⟩⟩ 1 =
      [⟨⟨3, -4⟩, 0, ⟨3 / 5, -4 / 5⟩, ⟨-4 / 5, -3 / 5⟩⟩] := by
  constructor <;>
    norm_num [mkArc, arcCwEx, ArcM.intersection, ArcM.containsPt, thetaLtB,
      thetaLeB, thetaClass, crossV, vecM1M2, piVec, negPiLtTheta, msqrt,
      Rat.sqrt, LineM.point, LineM.intersection, VectorM.colinear,
      LineM.normal, LineM.tangent, VectorM.normal, VectorM.normalize,
      VectorM.norm, VectorM.normSq, List.filterMap_cons]

/-- C6 (amended): every intersection returned by `Arc.intersection`
satisfies the nonstrict filter `0 ≤ s * sign_of_s`; with `sign_of_s = 1`
no negative `s` is returned, but `s = 0` can be. -/
theorem C6_arc_sign_filter_nonstrict :
    ∀ (A : ArcM) (other : LineM) (sgn : ℚ) (i : IntersectionM),
      i ∈ A.intersection other sgn → 0 ≤ i.s * sgn := by
  intro A other sgn i hi
  unfold ArcM.intersection at hi
  simp only [List.mem_filterMap] at hi
  obtain ⟨s, _, hf⟩ := hi
  split at hf
  · next hc =>
      simp only [Bool.and_eq_true, decide_eq_true_eq] at hc
      injection hf with hfi
      rw [← hfi]
      exact hc.2
  · exact absurd hf (by simp)

/-- Witness for the amended C6 at the concrete clockwise arc: the
returned `s = 0` intersection indeed satisfies `0 ≤ s * sign_of_s`. -/
theorem C6_arc_sign_filter_nonstrict_witness :
    0 ≤ (IntersectionM.mk ⟨3, -4⟩ 0 ⟨3 / 5, -4 / 5⟩ ⟨-4 / 5, -3 / 5⟩).s * 1 := by
  refine C6_arc_sign_filter_nonstrict arcCwEx ⟨⟨3, -4⟩, ⟨1, 0⟩⟩ 1
    ⟨⟨3, -4⟩, 0, ⟨3 / 5, -4 / 5⟩, ⟨-4 / 5, -3 / 5⟩⟩ ?_
  norm_num [arcCwEx, ArcM.intersection, ArcM.containsPt, thetaLtB,
    thetaLeB, thetaClass, crossV, vecM1M2, piVec, negPiLtTheta, msqrt,
    Rat.sqrt, LineM.point, VectorM.normal, VectorM.normalize,
    VectorM.norm, VectorM.normSq, List.filterMap_cons]

/-- C7: `Scene.add` raises a duplicate (`ValueError`) on a region or
source already in the corresponding list, and `Scene.add`/`Scene.remove`
raise `TypeError` on a bare ray; in every one of these cases the scene
(and hence its regions and sources lists) is returned unchanged. -/
theorem C7_scene_add_remove_errors :
    ∀ (sc : SceneM) (rg : RegionM) (s : SourceM) (r : RayM),
      (rg ∈ sc.regions → sc.add (.region rg) = (sc, some .valueError)) ∧
      (s ∈ sc.sources → sc.add (.source s) = (sc, some .valueError)) ∧
      sc.add (.ray r) = (sc, some .typeError) ∧
      sc.remove (.ray r) = (sc, some .typeError) := by
  intro sc rg s r
  exact ⟨fun h => by simp [SceneM.add, h],
         fun h => by simp [SceneM.add, h], rfl, rfl⟩

/-- Witness for C7 at a concrete scene already holding `sqRegion` and
`srcEx`. -/
theorem C7_scene_add_remove_errors_witness :
    sceneC7.add (.region sqRegion) = (sceneC7, some .valueError) ∧
    sceneC7.add (.source srcEx) = (sceneC7, some .valueError) ∧
    sceneC7.add (.ray rayEx) = (sceneC7, some .typeError) ∧
    sceneC7.remove (.ray rayEx) = (sceneC7, some .typeError) := by
  obtain ⟨h1, h2, h3, h4⟩ := C7_scene_add_remove_errors sceneC7 sqRegion srcEx rayEx
  exact ⟨h1 (by simp [sceneC7]), h2 (by simp [sceneC7]), h3, h4⟩

/-- The model square root vanishes only at zero (on nonnegative
arguments): `Rat.sqrt` of a positive rational has a positive numerator
square root over a positive denominator square root. -/
theorem msqrt_eq_zero_iff_of_nonneg (q : ℚ) (hq : 0 ≤ q) :
    msqrt q = 0 ↔ q = 0 := by
  constructor
  · intro h
    by_contra hne
    have hqpos : 0 < q := lt_of_le_of_ne hq (Ne.symm hne)
    have hnum : 0 < q.num := Rat.num_pos.mpr hqpos
    have hden : 0 < q.den := q.pos
    have hsn : 0 < Int.sqrt q.num := by
      unfold Int.sqrt
      have : 0 < Nat.sqrt q.num.toNat :=
        Nat.sqrt_pos.mpr (by omega)
      exact_mod_cast this
    have hsd : 0 < Nat.sqrt q.den := Nat.sqrt_pos.mpr hden
    have h0 : Int.sqrt q.num = 0 := by
      have := (Rat.mkRat_eq_zero (by omega)).mp h
      exact this
    omega
  · intro h
    subst h
    norm_num [msqrt]

/-- C8 counterexample: normalizing the zero vector raises
`ZeroDivisionError` (the Python float division `0.0 / 0.0` raises
rather than producing NaN/Inf), refuting the claim that no error is
raised. -/
theorem C8_normalize_zero_counterexample :
    VectorM.normalizeE ⟨0, 0⟩ = .error .zeroDivisionError := by
  have h0 : (VectorM.mk 0 0).norm = 0 := by
    simp only [VectorM.norm, VectorM.normSq, msqrt]
    norm_num
  simp [VectorM.normalizeE, h0]

/-- C8 (amended): `Vector.normalize` raises `ZeroDivisionError` exactly
on the zero vector — Python float division by the zero norm raises; it
does not return NaN/Inf components. -/
theorem C8_normalize_zero_raises :
    ∀ (x y : ℚ),
      VectorM.normalizeE ⟨x, y⟩ = .error .zeroDivisionError ↔
        (x = 0 ∧ y = 0) := by
  intro x y
  unfold VectorM.normalizeE
  constructor
  · intro h
    split at h
    · next hn =>
        have hq : (VectorM.mk x y).normSq = 0 := by
          have := (msqrt_eq_zero_iff_of_nonneg (VectorM.mk x y).normSq
            (by simp [VectorM.normSq]; nlinarith [mul_self_nonneg x, mul_self_nonneg y])).mp hn
          exact this
        simp only [VectorM.normSq] at hq
        constructor
        · nlinarith [mul_self_nonneg x, mul_self_nonneg y]
        · nlinarith [mul_self_nonneg x, mul_self_nonneg y]
    · next => simp at h
  · rintro ⟨rfl, rfl⟩
    have h0 : (VectorM.mk 0 0).norm = 0 := by
      simp only [VectorM.norm, VectorM.normSq, msqrt]
      norm_num
    rw [if_pos h0]

/-- Witness for the amended C8: the zero vector raises; the vector
`(3,4)` does not. -/
theorem C8_normalize_zero_raises_witness :
    VectorM.normalizeE ⟨0, 0⟩ = .error .zeroDivisionError ∧
    ¬ VectorM.normalizeE ⟨3, 4⟩ = .error .zeroDivisionError := by
  constructor
  · exact (C8_normalize_zero_raises 0 0).mpr ⟨rfl, rfl⟩
  · intro h
    have := (C8_normalize_zero_raises 3 4).mp h
    norm_num at this

/-- C9: `Line.intersection` returns the empty list whenever the two
direction vectors have an exactly zero cross product — parallel and
identical lines alike — and (being a total function) raises nothing. -/
theorem C9_colinear_empty_intersection :
    (∀ (l1 l2 : LineM) (sgn : ℚ),
      l1.u.x * l2.u.y - l1.u.y * l2.u.x = 0 →
      l1.intersection l2 sgn = []) ∧
    (∀ (l : LineM) (sgn : ℚ), l.intersection l sgn = []) := by
  constructor
  · intro l1 l2 sgn h
    have hc : l2.u.colinear l1.u = true := by
      unfold VectorM.colinear
      simp only [decide_eq_true_eq]
      linarith
    simp [LineM.intersection, hc]
  · intro l sgn
    have hc : l.u.colinear l.u = true := by
      unfold VectorM.colinear
      simp only [decide_eq_true_eq]
      ring
    simp [LineM.intersection, hc]

/-- Witness for C9: two distinct parallel lines, and an identical pair,
both yield no intersection. -/
theorem C9_colinear_empty_intersection_witness :
    (LineM.mk ⟨0, 0⟩ ⟨1, 1⟩).intersection (LineM.mk ⟨5, 0⟩ ⟨2, 2⟩) 1 = [] ∧
    (LineM.mk ⟨0, 0⟩ ⟨1, 1⟩).intersection (LineM.mk ⟨0, 0⟩ ⟨1, 1⟩) 0 = [] := by
  exact ⟨C9_colinear_empty_intersection.1 _ _ 1 (by norm_num),
         C9_colinear_empty_intersection.2 _ 0⟩

/-- A line through the endpoint `M2 = B` of segment `[A, B]` (forward,
not colinear with the segment) gets its intersection at `B` accepted:
the computed parameter equals `sB` and the strict bounds tests do not
reject an exact endpoint hit. -/
theorem segment_hit_M2 (A B : PointM) (L : LineM) (sB : ℚ)
    (hcol : L.u.colinear (vecM1M2 A B) = false)
    (hB : L.point sB = B) (hs : 0 < sB) :
    ∃ i : IntersectionM, SegmentM.intersection ⟨A, B⟩ L 1 = [i] ∧
      i.p = B ∧ i.s = sB := by
  have hx : L.p.x + sB * L.u.x = B.x := congrArg PointM.x hB
  have hy : L.p.y + sB * L.u.y = B.y := congrArg PointM.y hB
  have hden : ¬ (L.u.x * (vecM1M2 A B).y - L.u.y * (vecM1M2 A B).x = 0) := by
    intro h0
    have : L.u.colinear (vecM1M2 A B) = true := by
      unfold VectorM.colinear
      simp only [decide_eq_true_eq]
      exact h0
    rw [this] at hcol
    cases hcol
  have hseq : ((A.x - L.p.x) * (vecM1M2 A B).y -
        (A.y - L.p.y) * (vecM1M2 A B).x) /
      (L.u.x * (vecM1M2 A B).y - L.u.y * (vecM1M2 A B).x) = sB := by
    have hnum : (A.x - L.p.x) * (vecM1M2 A B).y -
        (A.y - L.p.y) * (vecM1M2 A B).x =
        sB * (L.u.x * (vecM1M2 A B).y - L.u.y * (vecM1M2 A B).x) := by
      have hx2 : L.p.x = B.x - sB * L.u.x := by linarith
      have hy2 : L.p.y = B.y - sB * L.u.y := by linarith
      simp only [vecM1M2, hx2, hy2]
      ring
    rw [hnum, mul_div_assoc, div_self hden, mul_one]
  have hinter : (LineM.mk A (vecM1M2 A B)).intersection L 1 =
      [⟨B, sB, (LineM.mk A (vecM1M2 A B)).normal true,
        (LineM.mk A (vecM1M2 A B)).tangent true⟩] := by
    unfold LineM.intersection
    simp only [hcol, Bool.false_eq_true, if_false, hseq]
    rw [if_pos (Or.inr (by linarith))]
    simp only [hx, hy]
  unfold SegmentM.intersection
  rw [hinter]
  simp only []
  split_ifs with h1 h2 h3 h3 h2 h3 h3
  · rcases h3 with h | h <;> linarith
  · exact ⟨_, rfl, rfl, rfl⟩
  · rcases h3 with h | h <;> linarith
  · exact ⟨_, rfl, rfl, rfl⟩
  · rcases h3 with h | h <;> linarith
  · exact ⟨_, rfl, rfl, rfl⟩
  · rcases h3 with h | h <;> linarith
  · exact ⟨_, rfl, rfl, rfl⟩

/-- A line through the endpoint `M1 = B` of segment `[B, C]` (forward,
not colinear with the segment) gets its intersection at `B` accepted. -/
theorem segment_hit_M1 (B C : PointM) (L : LineM) (sB : ℚ)
    (hcol : L.u.colinear (vecM1M2 B C) = false)
    (hB : L.point sB = B) (hs : 0 < sB) :
    ∃ i : IntersectionM, SegmentM.intersection ⟨B, C⟩ L 1 = [i] ∧
      i.p = B ∧ i.s = sB := by
  have hx : L.p.x + sB * L.u.x = B.x := congrArg PointM.x hB
  have hy : L.p.y + sB * L.u.y = B.y := congrArg PointM.y hB
  have hden : ¬ (L.u.x * (vecM1M2 B C).y - L.u.y * (vecM1M2 B C).x = 0) := by
    intro h0
    have : L.u.colinear (vecM1M2 B C) = true := by
      unfold VectorM.colinear
      simp only [decide_eq_true_eq]
      exact h0
    rw [this] at hcol
    cases hcol
  have hseq : ((B.x - L.p.x) * (vecM1M2 B C).y -
        (B.y - L.p.y) * (vecM1M2 B C).x) /
      (L.u.x * (vecM1M2 B C).y - L.u.y * (vecM1M2 B C).x) = sB := by
    have hnum : (B.x - L.p.x) * (vecM1M2 B C).y -
        (B.y - L.p.y) * (vecM1M2 B C).x =
        sB * (L.u.x * (vecM1M2 B C).y - L.u.y * (vecM1M2 B C).x) := by
      have hx2 : L.p.x = B.x - sB * L.u.x := by linarith
      have hy2 : L.p.y = B.y - sB * L.u.y := by linarith
      simp only [vecM1M2, hx2, hy2]
      ring
    rw [hnum, mul_div_assoc, div_self hden, mul_one]
  have hinter : (LineM.mk B (vecM1M2 B C)).intersection L 1 =
      [⟨B, sB, (LineM.mk B (vecM1M2 B C)).normal true,
        (LineM.mk B (vecM1M2 B C)).tangent true⟩] := by
    unfold LineM.intersection
    simp only [hcol, Bool.false_eq_true, if_false, hseq]
    rw [if_pos (Or.inr (by linarith))]
    simp only [hx, hy]
  unfold SegmentM.intersection
  rw [hinter]
  simp only []
  split_ifs with h1 h2 h3 h3 h2 h3 h3
  · rcases h3 with h | h <;> linarith
  · exact ⟨_, rfl, rfl, rfl⟩
  · rcases h3 with h | h <;> linarith
  · exact ⟨_, rfl, rfl, rfl⟩
  · rcases h3 with h | h <;> linarith
  · exact ⟨_, rfl, rfl, rfl⟩
  · rcases h3 with h | h <;> linarith
  · exact ⟨_, rfl, rfl, rfl⟩

/-- C10: `Segment.intersection` rejects with strict comparisons, so an
intersection landing exactly on an endpoint is accepted; consequently a
forward half-line through the shared vertex `B` of two adjacent segments
receives one intersection from each, and on the concrete closed triangle
`(0,0),(10,0),(5,10)` the vertical half-line from `(10,-5)` through the
vertex `(10,0)` collects two crossings, an even count, for the
parity-based containment test. -/
theorem C10_segment_endpoint_vertex :
    (∀ (A B C : PointM) (L : LineM) (sB : ℚ),
      L.u.colinear (vecM1M2 A B) = false →
      L.u.colinear (vecM1M2 B C) = false →
      L.point sB = B → 0 < sB →
      (∃ i1 : IntersectionM, SegmentM.intersection ⟨A, B⟩ L 1 = [i1] ∧
        i1.p = B ∧ i1.s = sB) ∧
      (∃ i2 : IntersectionM, SegmentM.intersection ⟨B, C⟩ L 1 = [i2] ∧
        i2.p = B ∧ i2.s = sB)) ∧
    (triRegion.intersection ⟨⟨10, -5⟩, ⟨0, 1⟩⟩ 1).length = 2 ∧
    triRegion.containsLine ⟨⟨10, -5⟩, ⟨0, 1⟩⟩ = false := by
  refine ⟨?_, ?_, ?_⟩
  · intro A B C L sB hc1 hc2 hB hs
    exact ⟨segment_hit_M2 A B L sB hc1 hB hs,
           segment_hit_M1 B C L sB hc2 hB hs⟩
  · norm_num [triRegion, RegionM.intersection, CurveM.intersection,
      SegmentM.intersection, LineM.intersection, VectorM.colinear, vecM1M2,
      LineM.normal, LineM.tangent, VectorM.normal, VectorM.normalize,
      VectorM.norm, VectorM.normSq, msqrt, Rat.sqrt, LineM.point]
  · norm_num [triRegion, RegionM.containsLine, RegionM.intersection,
      CurveM.intersection, SegmentM.intersection, LineM.intersection,
      VectorM.colinear, vecM1M2, LineM.normal, LineM.tangent,
      VectorM.normal, VectorM.normalize, VectorM.norm, VectorM.normSq,
      msqrt, Rat.sqrt, LineM.point]

/-- Witness for C10's general conjunct at the triangle's vertex
`(10,0)`: the half-line from `(10,-5)` heading `(0,1)` hits both
adjacent segments exactly at the vertex with `s = 5`. -/
theorem C10_segment_endpoint_vertex_witness :
    (∃ i1 : IntersectionM,
      SegmentM.intersection ⟨⟨0, 0⟩, ⟨10, 0⟩⟩ ⟨⟨10, -5⟩, ⟨0, 1⟩⟩ 1 = [i1] ∧
      i1.p = ⟨10, 0⟩ ∧ i1.s = 5) ∧
    (∃ i2 : IntersectionM,
      SegmentM.intersection ⟨⟨10, 0⟩, ⟨5, 10⟩⟩ ⟨⟨10, -5⟩, ⟨0, 1⟩⟩ 1 = [i2] ∧
      i2.p = ⟨10, 0⟩ ∧ i2.s = 5) := by
  exact C10_segment_endpoint_vertex.1 ⟨0, 0⟩ ⟨10, 0⟩ ⟨5, 10⟩
    ⟨⟨10, -5⟩, ⟨0, 1⟩⟩ 5
    (by norm_num [VectorM.colinear, vecM1M2])
    (by norm_num [VectorM.colinear, vecM1M2])
    (by norm_num [LineM.point]) (by norm_num)

theorem point_roundtrip (c : PointConfig) : (pointFromConfig c).config = c := rfl

theorem vector_roundtrip (c : VectorConfig) :
    (vectorFromConfig c).config = c := rfl

theorem line_roundtrip (c : LineConfig) : (lineFromConfig c).config = c := rfl

theorem part_roundtrip (c : PartConfig) : (partFromConfig c).config = c := rfl

theorem parts_map_roundtrip (l : List PartConfig) :
    (l.map partFromConfig).map PartM.config = l := by
  rw [List.map_map]
  have hcomp : PartM.config ∘ partFromConfig = id := funext part_roundtrip
  rw [hcomp, List.map_id]

theorem ray_roundtrip (c : RayConfig) (h : c.tag = none) :
    (rayFromConfig c none).config = c := by
  cases c with
  | mk parts tag =>
      simp only at h
      subst h
      simp only [rayFromConfig, RayM.config]
      rw [parts_map_roundtrip]

theorem mkArc_fields (M1 M2 : PointM) (tg : VectorM) (A : ArcM)
    (h : mkArc M1 M2 tg = some A) :
    A.M1 = M1 ∧ A.M2 = M2 ∧ A.tangent = tg := by
  simp only [mkArc] at h
  split at h
  · exact absurd h (by simp)
  · injection h with h2
    rw [← h2]
    exact ⟨rfl, rfl, rfl⟩

theorem pcAddCurves_spec :
    ∀ (cs : List CurveConfig) (rg : RegionM) (prev : PointConfig)
      (rg2 : RegionM),
      rg.M.getLast? = some (pointFromConfig prev) →
      curvesChainFrom prev cs = true →
      pcAddCurves rg cs = .ok rg2 →
      rg2.n = rg.n ∧ rg2.tag = rg.tag ∧
      rg2.curves.map CurveM.config = rg.curves.map CurveM.config ++ cs
  | [], rg, prev, rg2, _, _, h => by
      injection h with h2
      rw [← h2]
      exact ⟨rfl, rfl, by simp⟩
  | .seg M1c M2c :: rest, rg, prev, rg2, hlast, hchain, h => by
      simp only [curvesChainFrom, CurveConfig.cM1, CurveConfig.cM2,
        Bool.and_eq_true, decide_eq_true_eq] at hchain
      have hstep : pcAddCurves rg (.seg M1c M2c :: rest)
          = pcAddCurves (rg.add_line (pointFromConfig M2c)) rest := rfl
      rw [hstep] at h
      obtain ⟨hn, htag, hcurves⟩ :=
        pcAddCurves_spec rest (rg.add_line (pointFromConfig M2c)) M2c rg2
          (by simp [RegionM.add_line]) hchain.2 h
      refine ⟨by simpa [RegionM.add_line] using hn,
              by simpa [RegionM.add_line] using htag, ?_⟩
      rw [hcurves]
      simp [RegionM.add_line, lastMD, hlast, CurveM.config, SegmentM.config,
        point_roundtrip, hchain.1]
  | .arc M1c M2c tgc :: rest, rg, prev, rg2, hlast, hchain, h => by
      simp only [curvesChainFrom, CurveConfig.cM1, CurveConfig.cM2,
        Bool.and_eq_true, decide_eq_true_eq] at hchain
      have hstep : pcAddCurves rg (.arc M1c M2c tgc :: rest)
          = match rg.add_arc (pointFromConfig M2c) (vectorFromConfig tgc) with
            | .error e => .error e
            | .ok rg3 => pcAddCurves rg3 rest := rfl
      rw [hstep] at h
      cases hA : mkArc (lastMD rg) (pointFromConfig M2c)
          (vectorFromConfig tgc) with
      | none =>
          rw [show rg.add_arc (pointFromConfig M2c) (vectorFromConfig tgc)
              = .error .valueError by simp [RegionM.add_arc, hA]] at h
          exact absurd h (by simp)
      | some A =>
          rw [show rg.add_arc (pointFromConfig M2c) (vectorFromConfig tgc)
              = .ok { rg with curves := rg.curves ++ [.arc A],
                              M := rg.M ++ [pointFromConfig M2c] }
              by simp [RegionM.add_arc, hA]] at h
          obtain ⟨hAM1, hAM2, hAtg⟩ := mkArc_fields _ _ _ _ hA
          obtain ⟨hn, htag, hcurves⟩ :=
            pcAddCurves_spec rest _ M2c rg2 (by simp) hchain.2 h
          refine ⟨by simpa using hn, by simpa using htag, ?_⟩
          rw [hcurves]
          have hlastv : lastMD rg = pointFromConfig prev := by
            simp [lastMD, hlast]
          simp [CurveM.config, ArcM.config, hAM1, hAM2, hAtg, hlastv,
            point_roundtrip, vector_roundtrip, hchain.1]

theorem polycurve_roundtrip (cfg : PolycurveConfig) (rg : RegionM)
    (hcls : cfg.className = "Polycurve")
    (hchain : curvesChain cfg.curves = true)
    (hok : polycurveFromConfig cfg = .ok rg) :
    rg.config = cfg := by
  cases cfg with
  | mk cn ct cq ccs =>
      simp only at hcls hchain
      subst hcls
      cases hcs : ccs with
      | nil =>
          subst hcs
          exact absurd hok (by simp [polycurveFromConfig])
      | cons c0 rest =>
          subst hcs
          unfold polycurveFromConfig at hok
          simp only at hok
          have hchain1 : curvesChainFrom c0.cM2 rest = true := hchain
          have hchain2 : curvesChainFrom c0.cM1 (c0 :: rest) = true := by
            unfold curvesChainFrom
            simp [hchain1]
          obtain ⟨hn, htag, hcurves⟩ :=
            pcAddCurves_spec (c0 :: rest) ⟨cq, ct, [pointFromConfig c0.cM1], []⟩
              c0.cM1 rg (by simp) hchain2 hok
          unfold RegionM.config
          simp only at hn htag hcurves
          simp [hn, htag, hcurves]

theorem source_roundtrip (cfg : SourceConfig)
    (hcls : cfg.className = "SingleRay") (htag : cfg.tag = none)
    (hrays : ∀ rc ∈ cfg.rays, rc.tag = none) :
    (sourceFromConfig cfg).config = cfg := by
  cases cfg with
  | mk cn ct rays =>
      simp only at hcls htag hrays
      subst hcls
      subst htag
      simp only [sourceFromConfig, SourceM.config, List.map_map]
      have hmap : ∀ rc ∈ rays, (RayM.config ∘ fun rc => rayFromConfig rc none) rc = id rc :=
        fun rc hrc => ray_roundtrip rc (hrays rc hrc)
      rw [List.map_congr_left hmap, List.map_id]

theorem addRegionsCfg_spec :
    ∀ (l : List PolycurveConfig) (sc sc2 : SceneM),
      (∀ c ∈ l, c.className = "Polycurve" ∧ curvesChain c.curves = true) →
      addRegionsCfg sc l = (sc2, none) →
      sc2.regions.map RegionM.config = sc.regions.map RegionM.config ++ l ∧
      sc2.sources = sc.sources ∧ sc2.background = sc.background
  | [], sc, sc2, _, h => by
      injection h with h1 h2
      rw [← h1]
      exact ⟨by simp, rfl, rfl⟩
  | cfg :: rest, sc, sc2, hall, h => by
      have hcfg := hall cfg (by simp)
      unfold addRegionsCfg at h
      rw [if_pos hcfg.1] at h
      split at h
      · next e hpc =>
          injection h with h1 h2
          exact absurd h2 (by simp)
      · next rg hpc =>
          split at h
          · next sc3 hadd =>
              simp only [SceneM.add] at hadd
              by_cases hmem : rg ∈ sc.regions
              · rw [if_pos hmem] at hadd
                injection hadd with h1 h2
                exact absurd h2 (by simp)
              · rw [if_neg hmem] at hadd
                injection hadd with h1 h2
                subst h1
                obtain ⟨h1, h2, h3⟩ := addRegionsCfg_spec rest _ sc2
                  (fun c hc => hall c (by simp [hc])) h
                refine ⟨?_, by simpa using h2, by simpa using h3⟩
                rw [h1]
                simp [polycurve_roundtrip cfg rg hcfg.1 hcfg.2 hpc]
          · next sc3 e hadd =>
              injection h with h1 h2
              exact absurd h2 (by simp)

theorem addSourcesCfg_spec :
    ∀ (l : List SourceConfig) (sc sc2 : SceneM),
      (∀ c ∈ l, c.className = "SingleRay" ∧ c.tag = none ∧
        ∀ rc ∈ c.rays, rc.tag = none) →
      addSourcesCfg sc l = (sc2, none) →
      sc2.sources.map SourceM.config = sc.sources.map SourceM.config ++ l ∧
      sc2.regions = sc.regions ∧ sc2.background = sc.background
  | [], sc, sc2, _, h => by
      injection h with h1 h2
      rw [← h1]
      exact ⟨by simp, rfl, rfl⟩
  | cfg :: rest, sc, sc2, hall, h => by
      have hcfg := hall cfg (by simp)
      unfold addSourcesCfg at h
      rw [if_pos hcfg.1] at h
      split at h
      · next sc3 hadd =>
          simp only [SceneM.add] at hadd
          by_cases hmem : sourceFromConfig cfg ∈ sc.sources
          · rw [if_pos hmem] at hadd
            injection hadd with h1 h2
            exact absurd h2 (by simp)
          · rw [if_neg hmem] at hadd
            injection hadd with h1 h2
            subst h1
            obtain ⟨h1, h2, h3⟩ := addSourcesCfg_spec rest _ sc2
              (fun c hc => hall c (by simp [hc])) h
            refine ⟨?_, by simpa using h2, by simpa using h3⟩
            rw [h1]
            simp [source_roundtrip cfg hcfg.1 hcfg.2.1 hcfg.2.2]
      · next sc3 e hadd =>
          injection h with h1 h2
          exact absurd h2 (by simp)

theorem scene_roundtrip (cfg : SceneConfig) (sc : SceneM)
    (hreg : ∀ c ∈ cfg.regions,
      c.className = "Polycurve" ∧ curvesChain c.curves = true)
    (hsrc : ∀ c ∈ cfg.sources, c.className = "SingleRay" ∧ c.tag = none ∧
      ∀ rc ∈ c.rays, rc.tag = none)
    (hok : sceneFromConfig cfg = (sc, none)) :
    sc.config = cfg := by
  unfold sceneFromConfig at hok
  cases hr : addRegionsCfg SceneM.empty cfg.regions with
  | mk sc1 err =>
      rw [hr] at hok
      cases err with
      | some e =>
          simp only at hok
          injection hok with h1 h2
          exact absurd h2 (by simp)
      | none =>
          simp only at hok
          obtain ⟨hr1, hr2, hr3⟩ :=
            addRegionsCfg_spec cfg.regions SceneM.empty sc1 hreg hr
          obtain ⟨hs1, hs2, hs3⟩ :=
            addSourcesCfg_spec cfg.sources sc1 sc hsrc hok
          cases cfg with
          | mk rcfgs scfgs =>
              simp only [SceneM.empty, List.map_nil, List.nil_append]
                at hr1 hr2 hr3 hs1
              unfold SceneM.config
              simp [hs2, hr1, hs1, hr2]

/-- C5 counterexample: a tagged Ray configuration does not round-trip —
`Ray.config` emits no tag key — and a tagged SingleRay Source
configuration does not round-trip — `Source.from_config` constructs the
source without its tag, leaving `None`. -/
theorem C5_roundtrip_counterexample :
    (rayFromConfig ⟨[], some "r1"⟩ none).config ≠ (⟨[], some "r1"⟩ : RayConfig) ∧
    (sourceFromConfig ⟨"SingleRay", some "s1", []⟩).config ≠
      (⟨"SingleRay", some "s1", []⟩ : SourceConfig) := by
  constructor
  · intro h
    simp [rayFromConfig, RayM.config] at h
  · intro h
    simp [sourceFromConfig, SourceM.config] at h

/-- C5 (amended): `config_of(from_config(cfg)) = cfg` holds for Point,
Vector, Line and Part configurations unconditionally; for Ray
configurations without a tag; for Polycurve configurations (with curve
entries covering Segment and Arc) whose class name is `Polycurve` and
whose curves are contiguous; for SingleRay Source configurations whose
tags (source and rays) are absent; and for Scene configurations composed
of such regions and sources. Tagged Ray and Source configs do not
round-trip (see the counterexample); `Beam` re-interpolates its rays
through trigonometric functions and is outside this model. -/
theorem C5_roundtrip_amended :
    (∀ c : PointConfig, (pointFromConfig c).config = c) ∧
    (∀ c : VectorConfig, (vectorFromConfig c).config = c) ∧
    (∀ c : LineConfig, (lineFromConfig c).config = c) ∧
    (∀ c : PartConfig, (partFromConfig c).config = c) ∧
    (∀ c : RayConfig, c.tag = none → (rayFromConfig c none).config = c) ∧
    (∀ (cfg : PolycurveConfig) (rg : RegionM),
      cfg.className = "Polycurve" → curvesChain cfg.curves = true →
      polycurveFromConfig cfg = .ok rg → rg.config = cfg) ∧
    (∀ cfg : SourceConfig, cfg.className = "SingleRay" → cfg.tag = none →
      (∀ rc ∈ cfg.rays, rc.tag = none) →
      (sourceFromConfig cfg).config = cfg) ∧
    (∀ (cfg : SceneConfig) (sc : SceneM),
      (∀ c ∈ cfg.regions,
        c.className = "Polycurve" ∧ curvesChain c.curves = true) →
      (∀ c ∈ cfg.sources, c.className = "SingleRay" ∧ c.tag = none ∧
        ∀ rc ∈ c.rays, rc.tag = none) →
      sceneFromConfig cfg = (sc, none) → sc.config = cfg) :=
  ⟨point_roundtrip, vector_roundtrip, line_roundtrip, part_roundtrip,
   ray_roundtrip, polycurve_roundtrip, source_roundtrip, scene_roundtrip⟩

/-- Witness for the amended C5 at concrete configurations: an untagged
ray config, the triangle polycurve config, an untagged single-ray source
config, and the scene config combining them all round-trip exactly. -/
theorem C5_roundtrip_amended_witness :
    (rayFromConfig rayCfgEx none).config = rayCfgEx ∧
    triRegion.config = triCfg ∧
    (sourceFromConfig srcCfgEx).config = srcCfgEx ∧
    sceneFromCfgEx.config = sceneCfgEx := by
  refine ⟨C5_roundtrip_amended.2.2.2.2.1 rayCfgEx rfl, ?_, ?_, ?_⟩
  · refine C5_roundtrip_amended.2.2.2.2.2.1 triCfg triRegion rfl
      (by norm_num [curvesChain, curvesChainFrom, CurveConfig.cM1,
        CurveConfig.cM2, triCfg]) ?_
    norm_num [polycurveFromConfig, pcAddCurves, RegionM.add_line, lastMD,
      pointFromConfig, triCfg, triRegion, CurveConfig.cM1]
  · exact C5_roundtrip_amended.2.2.2.2.2.2.1 srcCfgEx rfl rfl
      (by intro rc hrc; simp [srcCfgEx, rayCfgEx] at hrc; simp [hrc, rayCfgEx])
  · refine C5_roundtrip_amended.2.2.2.2.2.2.2 sceneCfgEx sceneFromCfgEx
      ?_ ?_ ?_
    · intro c hc
      simp [sceneCfgEx] at hc
      subst hc
      exact ⟨rfl, by norm_num [curvesChain, curvesChainFrom,
        CurveConfig.cM1, CurveConfig.cM2, triCfg]⟩
    · intro c hc
      simp [sceneCfgEx] at hc
      subst hc
      refine ⟨rfl, rfl, ?_⟩
      intro rc hrc
      simp [srcCfgEx, rayCfgEx] at hrc
      simp [hrc, rayCfgEx]
    · norm_num [sceneFromConfig, addRegionsCfg, addSourcesCfg, SceneM.add,
        SceneM.empty, sourceFromConfig, rayFromConfig, partFromConfig,
        lineFromConfig, pointFromConfig, vectorFromConfig,
        polycurveFromConfig, pcAddCurves, RegionM.add_line, lastMD,
        triCfg, srcCfgEx, sceneCfgEx, sceneFromCfgEx, rayCfgEx, triRegion,
        CurveConfig.cM1]

/-- C2: the Snell branch of the propagation step. When
`u2N² = ((n2/n1)² - 1)·u1T² + (n2/n1)²·u1N²` is negative (total internal
reflection), the result is `u2N = -u1N` with index `n1` and the current
region kept; when it is nonnegative, the new index is `n2`, the next
region is the downstream region, and `u2N = copysign(sqrt(u2N²), u1N)`
carries the sign of `u1N`. The last conjunct ties this to the loop body:
the part appended by `iterStep` carries the branch's index and the next
iteration uses the branch's region. -/
theorem C2_refraction_branches :
    ∀ (cr r2 : RegionM) (u1N u1T n1 n2 : ℚ),
      (((n2 / n1) ^ 2 - 1) * u1T ^ 2 + (n2 / n1) ^ 2 * u1N ^ 2 < 0 →
        snellStep cr r2 u1N u1T n1 n2 =
          { u2N := -u1N, nNext := n1, nextRegion := cr }) ∧
      (0 ≤ ((n2 / n1) ^ 2 - 1) * u1T ^ 2 + (n2 / n1) ^ 2 * u1N ^ 2 →
        (snellStep cr r2 u1N u1T n1 n2).nNext = n2 ∧
        (snellStep cr r2 u1N u1T n1 n2).nextRegion = r2 ∧
        (0 ≤ u1N → 0 ≤ (snellStep cr r2 u1N u1T n1 n2).u2N) ∧
        (u1N < 0 → (snellStep cr r2 u1N u1T n1 n2).u2N ≤ 0)) ∧
      (∀ (r : RayM) (d : Diopter),
        (lastPartD (iterStep cr r d).1.parts).n =
          some (snellStep cr d.region2
            (((lastPartD (changeSLast r.parts d.i.s)).line.u).dot d.i.eN)
            (((lastPartD (changeSLast r.parts d.i.s)).line.u).dot d.i.eT)
            ((lastPartD (changeSLast r.parts d.i.s)).n.getD 0)
            d.region2.n).nNext ∧
        (iterStep cr r d).2 =
          (snellStep cr d.region2
            (((lastPartD (changeSLast r.parts d.i.s)).line.u).dot d.i.eN)
            (((lastPartD (changeSLast r.parts d.i.s)).line.u).dot d.i.eT)
            ((lastPartD (changeSLast r.parts d.i.s)).n.getD 0)
            d.region2.n).nextRegion) := by
  intro cr r2 u1N u1T n1 n2
  refine ⟨?_, ?_, ?_⟩
  · intro h
    simp only [snellStep]
    rw [if_neg (not_le.mpr h)]
  · intro h
    simp only [snellStep]
    rw [if_pos h]
    refine ⟨rfl, rfl, ?_, ?_⟩
    · intro hu
      simp only [copysign]
      rw [if_neg (not_lt.mpr hu)]
      exact abs_nonneg _
    · intro hu
      simp only [copysign]
      rw [if_pos hu]
      exact neg_nonpos.mpr (abs_nonneg _)
  · intro r d
    constructor
    · simp [iterStep, RayM.add_part, lastPartD, List.getLast?_concat]
    · rfl

/-- Witness for C2: a concrete total-internal-reflection input
(`n1 = 2`, `n2 = 1`, `u2N² = -11/16`) keeps index 2 and the current
region; a concrete refraction input (`n1 = 1`, `n2 = 2`, `u2N² = 4`)
takes index 2 and a nonnegative `u2N`. -/
theorem C2_refraction_branches_witness :
    snellStep sceneEx.background sqRegion (1 / 2) 1 2 1 =
      { u2N := -(1 / 2), nNext := 2, nextRegion := sceneEx.background } ∧
    (snellStep sceneEx.background sqRegion (1 / 2) 1 1 2).nNext = 2 ∧
    0 ≤ (snellStep sceneEx.background sqRegion (1 / 2) 1 1 2).u2N := by
  refine ⟨(C2_refraction_branches sceneEx.background sqRegion
      (1 / 2) 1 2 1).1 (by norm_num), ?_, ?_⟩
  · exact ((C2_refraction_branches sceneEx.background sqRegion
      (1 / 2) 1 1 2).2.1 (by norm_num)).1
  · exact ((C2_refraction_branches sceneEx.background sqRegion
      (1 / 2) 1 1 2).2.1 (by norm_num)).2.2.1 (by norm_num)

end Geoptics
